import Mathlib

/-!
Shallow embedding of the batch record-to-SQL-literal conversion and chunked
insertion logic of a small lakehouse ingestion pipeline: the value formatter
and insert loop of `scripts/insert_taxi_data.py` (duplicated in
`lakehouse_pipeline/assets/ingestion.py`), and the statement-execution
behaviour of `lakehouse_pipeline/resources/trino_resource.py`.
-/

/-- A Python scalar as it reaches `format_value`: absent (`None`); a float,
represented by its `str()` textual form (for example "3.5", "nan", "inf",
"-inf"); an arbitrary-precision integer; a string; a datetime-like value
carrying an `isoformat` attribute, represented by its `str()` form; or a
boolean. -/
inductive PyVal where
  | pyNone : PyVal
  | pyFloat (r : String) : PyVal
  | pyInt (n : Int) : PyVal
  | pyStr (s : String) : PyVal
  | pyTimestamp (r : String) : PyVal
  | pyBool (b : Bool) : PyVal
deriving DecidableEq, Repr

/-- Python `str(val)` on each scalar kind: floats and timestamps carry their
textual form, integers print in decimal, booleans print as `True` / `False`. -/
def pyStrOf : PyVal → String
  | PyVal.pyNone => "None"
  | PyVal.pyFloat r => r
  | PyVal.pyInt n => toString n
  | PyVal.pyStr s => s
  | PyVal.pyTimestamp r => r
  | PyVal.pyBool b => if b then "True" else "False"

/-- The guard of the first branch of `format_value`:
`val is None or (isinstance(val, float) and str(val) == "nan")`. -/
def isNoneOrNanFloat : PyVal → Bool
  | PyVal.pyNone => true
  | PyVal.pyFloat r => r == "nan"
  | _ => false

/-- The guard of the second branch: `isinstance(val, str)`. -/
def isStrVal : PyVal → Bool
  | PyVal.pyStr _ => true
  | _ => false

/-- The guard of the third branch: `hasattr(val, "isoformat")`. -/
def hasIsoformatAttr : PyVal → Bool
  | PyVal.pyTimestamp _ => true
  | _ => false

/-- `format_value` from `scripts/insert_taxi_data.py`: convert a Python value
to a Trino SQL literal. -/
def format_value (v : PyVal) : String :=
  if isNoneOrNanFloat v then "NULL"
  else if isStrVal v then "'" ++ pyStrOf v ++ "'"
  else if hasIsoformatAttr v then "TIMESTAMP '" ++ pyStrOf v ++ "'"
  else pyStrOf v

/-- `_format_value` from `lakehouse_pipeline/assets/ingestion.py`, a verbatim
copy of `format_value`. -/
def _format_value (v : PyVal) : String :=
  if isNoneOrNanFloat v then "NULL"
  else if isStrVal v then "'" ++ pyStrOf v ++ "'"
  else if hasIsoformatAttr v then "TIMESTAMP '" ++ pyStrOf v ++ "'"
  else pyStrOf v

/-- Characters that can occur in the `str()` form of a finite Python float:
digits, decimal point, sign, exponent marker. -/
def pyFloatChar (c : Char) : Bool :=
  c.isDigit || c == '.' || c == '-' || c == '+' || c == 'e'

/-- The strings that `str()` can produce on a Python float: `nan`, `inf`,
`-inf`, or a nonempty string of digits, point, sign and exponent characters. -/
def validFloatRepr (s : String) : Bool :=
  s == "nan" || s == "inf" || s == "-inf"
    || (!s.data.isEmpty && s.data.all pyFloatChar)

/-- A `PyVal` is valid when any float it carries has a textual form that a
Python float can actually produce. -/
def ValidPyVal : PyVal → Bool
  | PyVal.pyFloat r => validFloatRepr r
  | _ => true


/-- The row batcher from the source loop header
`for start in range(0, len(df), BATCH_SIZE): batch = df.iloc[start : start + BATCH_SIZE]`.
`range(0, n, B)` for positive step `B` enumerates `ceil(n / B)` starts, and the
slice `[start : start + B]` is drop-then-take with clamping at the end. -/
def batches (xs : List α) (B : Nat) : List (List α) :=
  (List.range' 0 ((xs.length + B - 1) / B) B).map (fun s => (xs.drop s).take B)

/-- Recursive chunking with positive chunk size `b + 1`; proof vehicle for the
structural properties of `batches`. -/
def chunksF (b : Nat) : List α → List (List α)
  | [] => []
  | x :: xs => ((x :: xs).take (b + 1)) :: chunksF b ((x :: xs).drop (b + 1))
termination_by l => l.length
decreasing_by simp [List.length_drop]; omega

/-- One parenthesized row-tuple: values formatted in column order, joined with
`, `, wrapped in parentheses (`vals = ", ".join(format_value(v) for v in row.values)`;
`rows.append(f"({vals})")`). -/
def rowTuple (row : List PyVal) : String :=
  "(" ++ String.intercalate (", ") (row.map format_value) ++ ")"

/-- The statement built for one batch:
`f"INSERT INTO yellow_trips ({columns}) VALUES {', '.join(rows)}"`. -/
def insertStatement (columns : String) (batch : List (List PyVal)) : String :=
  "INSERT INTO yellow_trips (" ++ columns ++ ") VALUES " ++
    String.intercalate (", ") (batch.map rowTuple)

/-- Observable state of an ingestion run: the statements the database has
received, in order, and the running total `total_inserted` of rows counted. -/
structure RunState where
  stmts : List String
  total : Nat
deriving DecidableEq, Repr

/-- State before the loop: no statement submitted, `total_inserted = 0`. -/
def initState : RunState := { stmts := [], total := 0 }

/-- The batch-insert loop. For each batch, in order, it builds the INSERT
statement and submits it (`cursor.execute(sql)`); a database error at batch
`k` (modelled by the oracle `failAt k = true`) is not caught: the loop stops
and the exception carries out the state as it was before the failing
submission. On success the statement is appended to the database's log and
`total` advances by the batch length. -/
def insertLoop (failAt : Nat → Bool) (columns : String) :
    Nat → List (List (List PyVal)) → RunState → Except RunState RunState
  | _, [], st => Except.ok st
  | k, b :: bs, st =>
    if failAt k then Except.error st
    else insertLoop failAt columns (k + 1) bs
      { stmts := st.stmts ++ [insertStatement columns b],
        total := st.total + b.length }

/-- Oracle for a run in which no statement submission raises. -/
def noFailure : Nat → Bool := fun _ => false

/-- The whole ingestion run of `main` / `iceberg_raw_yellow_trips`: sample the
first `sampleSize` rows of the file (`table.slice(0, SAMPLE_SIZE)`), then run
the batch-insert loop from the initial state. -/
def runIngestion (failAt : Nat → Bool) (columns : String) (sampleSize B : Nat)
    (file : List (List PyVal)) : Except RunState RunState :=
  insertLoop failAt columns 0 (batches (file.take sampleSize) B) initState

/-- `TrinoResource.execute`: run the statement (its outcome is `execRes`; an
exception there propagates), then `try: return cursor.fetchall() except
Exception: return []` (its outcome is `fetchRes`; an exception there is
swallowed and the empty list is returned). -/
def TrinoResource.execute {ε ρ : Type} (execRes : Except ε Unit)
    (fetchRes : Except ε (List ρ)) : Except ε (List ρ) :=
  match execRes with
  | Except.error e => Except.error e
  | Except.ok _ =>
    match fetchRes with
    | Except.ok rows => Except.ok rows
    | Except.error _ => Except.ok []


/-! Helper lemmas about decimal printing of naturals and integers, needed to
show that the default branch of the formatter can never collide with the
`NULL` or quoted shapes. -/

theorem digitChar_isDigit : ∀ k, k < 10 → (Nat.digitChar k).isDigit = true := by decide

theorem toDigitsCore_digits (fuel n : Nat) (ds : List Char)
    (hds : ∀ c ∈ ds, c.isDigit = true) :
    ∀ c ∈ Nat.toDigitsCore 10 fuel n ds, c.isDigit = true := by
  induction fuel generalizing n ds with
  | zero => simpa [Nat.toDigitsCore] using hds
  | succ f ih =>
    have hcons : ∀ c ∈ Nat.digitChar (n % 10) :: ds, c.isDigit = true := by
      intro c hc
      rcases List.mem_cons.mp hc with h | h
      · subst h; exact digitChar_isDigit _ (Nat.mod_lt _ (by decide))
      · exact hds c h
    simp only [Nat.toDigitsCore]
    split
    · exact hcons
    · exact ih (n / 10) _ hcons

theorem toDigitsCore_length_le (base fuel n : Nat) (ds : List Char) :
    ds.length ≤ (Nat.toDigitsCore base fuel n ds).length := by
  induction fuel generalizing n ds with
  | zero => simp [Nat.toDigitsCore]
  | succ f ih =>
    simp only [Nat.toDigitsCore]
    split
    · simp
    · exact Nat.le_trans (by simp) (ih (n / base) _)

theorem toDigitsCore_ne_nil (base n fuel : Nat) (ds : List Char) :
    Nat.toDigitsCore base (fuel + 1) n ds ≠ [] := by
  simp only [Nat.toDigitsCore]
  split
  · simp
  · intro h
    have hlen := toDigitsCore_length_le base fuel (n / base) (Nat.digitChar (n % base) :: ds)
    rw [h] at hlen
    simp at hlen

theorem natRepr_data_digits (n : Nat) : ∀ c ∈ (Nat.repr n).data, c.isDigit = true := by
  intro c hc
  exact toDigitsCore_digits (n + 1) n [] (by simp) c hc

theorem natRepr_data_ne_nil (n : Nat) : (Nat.repr n).data ≠ [] :=
  toDigitsCore_ne_nil 10 n n []

theorem intStr_chars (n : Int) : ∀ c ∈ (toString n).data, c.isDigit = true ∨ c = '-' := by
  cases n with
  | ofNat m =>
    intro c hc
    exact Or.inl (natRepr_data_digits m c hc)
  | negSucc m =>
    intro c hc
    have hc' : c ∈ '-' :: (Nat.repr (m + 1)).data := hc
    rcases List.mem_cons.mp hc' with h | h
    · exact Or.inr h
    · exact Or.inl (natRepr_data_digits (m + 1) c h)

theorem intStr_ne_NULL (n : Int) : toString n ≠ "NULL" := by
  intro h
  have hN : ('N' : Char) ∈ (toString n).data := by rw [h]; decide
  rcases intStr_chars n 'N' hN with h1 | h1 <;> exact absurd h1 (by decide)

theorem string_head_ne {s t : String} (c d : Char) (hs : s.data.head? = some c)
    (ht : t.data.head? = some d) (hcd : c ≠ d) : s ≠ t := by
  intro h
  rw [h, ht] at hs
  exact hcd (Option.some.inj hs).symm

theorem quoted_ne_NULL (s : String) : ("'" ++ s ++ "'") ≠ "NULL" :=
  string_head_ne (Char.ofNat 39) 'N' rfl rfl (by decide)

theorem timestamp_ne_NULL (s : String) : ("TIMESTAMP '" ++ s ++ "'") ≠ "NULL" :=
  string_head_ne 'T' 'N' rfl rfl (by decide)

theorem quote_mem_quoted (t : String) : (Char.ofNat 39) ∈ ("'" ++ t ++ "'").data := by
  have h : ("'" ++ t ++ "'").data = Char.ofNat 39 :: (t.data ++ [Char.ofNat 39]) := rfl
  rw [h]
  exact List.mem_cons_self _ _

/-- C1: for every valid input value v, `format_value` returns "NULL" iff v is
the null value or a float whose textual form is "nan"; `_format_value` is its
verbatim copy; the null value maps to "NULL"
and the non-NaN float 3.5 maps to its unquoted representation "3.5". -/
theorem C1_format_value_null_iff (v : PyVal) (hv : ValidPyVal v = true) :
    (format_value v = "NULL" ↔ v = PyVal.pyNone ∨ v = PyVal.pyFloat "nan")
    ∧ _format_value v = format_value v
    ∧ format_value PyVal.pyNone = "NULL"
    ∧ format_value (PyVal.pyFloat "3.5") = "3.5" := by
  refine ⟨?_, rfl, rfl, by decide⟩
  cases v with
  | pyNone => decide
  | pyFloat r =>
    by_cases hr : r = "nan"
    · subst hr; decide
    · have h1 : format_value (PyVal.pyFloat r) = r := by
        simp [format_value, isNoneOrNanFloat, isStrVal, hasIsoformatAttr, pyStrOf, hr]
      rw [h1]
      constructor
      · intro hN
        subst hN
        exact absurd hv (by decide)
      · rintro (h | h)
        · exact absurd h (by simp)
        · simp only [PyVal.pyFloat.injEq] at h
          exact absurd h hr
  | pyInt n =>
    have h1 : format_value (PyVal.pyInt n) = toString n := rfl
    rw [h1]
    simp [intStr_ne_NULL n]
  | pyStr s =>
    have h1 : format_value (PyVal.pyStr s) = "'" ++ s ++ "'" := rfl
    rw [h1]
    simp [quoted_ne_NULL s]
  | pyTimestamp r =>
    have h1 : format_value (PyVal.pyTimestamp r) = "TIMESTAMP '" ++ r ++ "'" := rfl
    rw [h1]
    simp [timestamp_ne_NULL r]
  | pyBool b => cases b <;> decide

/-- C1 witness: instantiation at the concrete non-NaN float 3.5. -/
theorem C1_format_value_null_iff_witness :
    ValidPyVal (PyVal.pyFloat "3.5") = true
    ∧ ((format_value (PyVal.pyFloat "3.5") = "NULL"
          ↔ PyVal.pyFloat "3.5" = PyVal.pyNone ∨ PyVal.pyFloat "3.5" = PyVal.pyFloat "nan")
        ∧ _format_value (PyVal.pyFloat "3.5") = format_value (PyVal.pyFloat "3.5")
        ∧ format_value PyVal.pyNone = "NULL"
        ∧ format_value (PyVal.pyFloat "3.5") = "3.5") :=
  ⟨by decide, C1_format_value_null_iff (PyVal.pyFloat "3.5") (by decide)⟩

/-- C4: every value exposing a date/time decomposition (necessarily not null,
not a NaN float, not textual) is formatted as `TIMESTAMP '<textual form>'`,
and the example timestamp 2024-01-01 00:00:00 produces exactly
`TIMESTAMP '2024-01-01 00:00:00'`. -/
theorem C4_format_value_timestamp (v : PyVal) (hv : hasIsoformatAttr v = true) :
    format_value v = "TIMESTAMP '" ++ pyStrOf v ++ "'"
    ∧ format_value (PyVal.pyTimestamp "2024-01-01 00:00:00")
        = "TIMESTAMP '2024-01-01 00:00:00'" := by
  refine ⟨?_, by decide⟩
  cases v <;> first | rfl | simp [hasIsoformatAttr] at hv

/-- C4 witness: instantiation at the example timestamp. -/
theorem C4_format_value_timestamp_witness :
    hasIsoformatAttr (PyVal.pyTimestamp "2024-01-01 00:00:00") = true
    ∧ (format_value (PyVal.pyTimestamp "2024-01-01 00:00:00")
          = "TIMESTAMP '" ++ pyStrOf (PyVal.pyTimestamp "2024-01-01 00:00:00") ++ "'"
        ∧ format_value (PyVal.pyTimestamp "2024-01-01 00:00:00")
            = "TIMESTAMP '2024-01-01 00:00:00'") :=
  ⟨by decide, C4_format_value_timestamp (PyVal.pyTimestamp "2024-01-01 00:00:00") (by decide)⟩

/-- C5: every string s is emitted as s wrapped in single quotes with no
escaping (even when s contains single quotes), and on valid inputs a
single-quoted result is produced only for string inputs. -/
theorem C5_format_value_quoting :
    (∀ s : String, format_value (PyVal.pyStr s) = "'" ++ s ++ "'")
    ∧ (∀ v : PyVal, ValidPyVal v = true →
        ((∃ t : String, format_value v = "'" ++ t ++ "'") ↔ isStrVal v = true)) := by
  constructor
  · intro s
    rfl
  · intro v hv
    constructor
    · rintro ⟨t, ht⟩
      cases v with
      | pyNone => exact absurd ht (string_head_ne 'N' (Char.ofNat 39) rfl rfl (by decide))
      | pyStr s => rfl
      | pyTimestamp r => exact absurd ht (string_head_ne 'T' (Char.ofNat 39) rfl rfl (by decide))
      | pyBool b =>
        cases b with
        | true => exact absurd ht (string_head_ne 'T' (Char.ofNat 39) rfl rfl (by decide))
        | false => exact absurd ht (string_head_ne 'F' (Char.ofNat 39) rfl rfl (by decide))
      | pyInt n =>
        have h1 : format_value (PyVal.pyInt n) = toString n := rfl
        rw [h1] at ht
        have hq : (Char.ofNat 39) ∈ (toString n).data := by
          rw [ht]; exact quote_mem_quoted t
        rcases intStr_chars n _ hq with h | h <;> exact absurd h (by decide)
      | pyFloat r =>
        by_cases hr : r = "nan"
        · subst hr
          exact absurd ht (string_head_ne 'N' (Char.ofNat 39) rfl rfl (by decide))
        · have h1 : format_value (PyVal.pyFloat r) = r := by
            simp [format_value, isNoneOrNanFloat, isStrVal, hasIsoformatAttr, pyStrOf, hr]
          rw [h1] at ht
          have hvr : validFloatRepr r = true := hv
          simp only [validFloatRepr, Bool.or_eq_true, beq_iff_eq, Bool.and_eq_true,
            Bool.not_eq_true'] at hvr
          rcases hvr with ((h | h) | h) | ⟨-, hall⟩
          · exact absurd h hr
          · subst h
            exact absurd ht (string_head_ne 'i' (Char.ofNat 39) rfl rfl (by decide))
          · subst h
            exact absurd ht (string_head_ne '-' (Char.ofNat 39) rfl rfl (by decide))
          · have hq : (Char.ofNat 39) ∈ r.data := by
              rw [ht]; exact quote_mem_quoted t
            have := List.all_eq_true.mp hall _ hq
            exact absurd this (by decide)
    · intro hstr
      cases v <;> first | exact ⟨_, rfl⟩ | simp [isStrVal] at hstr

/-- C5 witness: a string containing a single quote is wrapped unescaped, and
the quoted-iff-textual equivalence instantiated at a concrete string value. -/
theorem C5_format_value_quoting_witness :
    format_value (PyVal.pyStr "O'Brien") = "'" ++ "O'Brien" ++ "'"
    ∧ ((∃ t : String, format_value (PyVal.pyStr "CASH") = "'" ++ t ++ "'")
        ↔ isStrVal (PyVal.pyStr "CASH") = true) :=
  ⟨C5_format_value_quoting.1 "O'Brien",
    C5_format_value_quoting.2 (PyVal.pyStr "CASH") (by decide)⟩

/-- C7: the formatter is total — on every supported scalar kind it returns a
string, which is moreover always one of the four literal shapes (the `NULL`
literal, a single-quoted string, a `TIMESTAMP` literal, or the default
textual form). -/
theorem C7_format_value_total (v : PyVal) :
    format_value v = "NULL"
    ∨ format_value v = "'" ++ pyStrOf v ++ "'"
    ∨ format_value v = "TIMESTAMP '" ++ pyStrOf v ++ "'"
    ∨ format_value v = pyStrOf v := by
  cases v with
  | pyNone => exact Or.inl rfl
  | pyFloat r =>
    by_cases hr : r = "nan"
    · subst hr; exact Or.inl rfl
    · refine Or.inr (Or.inr (Or.inr ?_))
      simp [format_value, isNoneOrNanFloat, isStrVal, hasIsoformatAttr, hr]
  | pyInt n => exact Or.inr (Or.inr (Or.inr rfl))
  | pyStr s => exact Or.inr (Or.inl rfl)
  | pyTimestamp r => exact Or.inr (Or.inr (Or.inl rfl))
  | pyBool b => exact Or.inr (Or.inr (Or.inr rfl))

/-- C9: non-NaN non-finite floats ("inf", "-inf") and booleans fall through to
the default branch and are emitted unquoted as their Python textual forms,
not as NULL and not as SQL boolean literals. -/
theorem C9_inf_bool_fall_through :
    format_value (PyVal.pyFloat "inf") = "inf"
    ∧ format_value (PyVal.pyFloat "-inf") = "-inf"
    ∧ format_value (PyVal.pyBool true) = "True"
    ∧ format_value (PyVal.pyBool false) = "False"
    ∧ format_value (PyVal.pyFloat "inf") ≠ "NULL"
    ∧ format_value (PyVal.pyFloat "-inf") ≠ "NULL"
    ∧ format_value (PyVal.pyBool true) ≠ "NULL"
    ∧ format_value (PyVal.pyBool false) ≠ "NULL" := by decide

/-! Structural theory of the row batcher. -/

theorem ceil_div_succ (B n : Nat) (hB : 0 < B) (hn : 0 < n) :
    (n + B - 1) / B = (n - B + B - 1) / B + 1 := by
  rcases Nat.lt_or_ge n B with h | h
  · have h1 : n - B = 0 := by omega
    have h2 : n + B - 1 = (n - 1) + B := by omega
    have h4 : (n - 1) / B = 0 := Nat.div_eq_of_lt (by omega)
    have h5 : (0 + B - 1) / B = 0 := Nat.div_eq_of_lt (by omega)
    rw [h1, h2, Nat.add_div_right _ hB, h4, h5]
  · have h2 : n + B - 1 = (n - 1) + B := by omega
    have h3 : n - B + B - 1 = n - 1 := by omega
    rw [h2, h3, Nat.add_div_right _ hB]

theorem batches_eq_chunksF (b : Nat) (xs : List α) : batches xs (b + 1) = chunksF b xs := by
  induction xs using chunksF.induct b with
  | case1 => simp [batches, chunksF, Nat.div_eq_of_lt (Nat.lt_succ_self b)]
  | case2 x xs ih =>
    have hpos : 0 < (x :: xs).length := by simp
    have hk := ceil_div_succ (b + 1) (x :: xs).length (Nat.succ_pos b) hpos
    show (List.range' 0 (((x :: xs).length + (b + 1) - 1) / (b + 1)) (b + 1)).map
        (fun s => ((x :: xs).drop s).take (b + 1)) = chunksF b (x :: xs)
    rw [hk, List.range'_succ, List.map_cons]
    rw [chunksF]
    congr 1
    rw [← ih]
    show (List.range' (0 + (b + 1)) (((x :: xs).length - (b + 1) + (b + 1) - 1) / (b + 1))
        (b + 1)).map (fun s => ((x :: xs).drop s).take (b + 1))
      = batches ((x :: xs).drop (b + 1)) (b + 1)
    unfold batches
    rw [List.length_drop]
    rw [Nat.zero_add, ← Nat.add_zero (b + 1),
      ← List.map_add_range' (b + 1) 0 _ (b + 1), List.map_map]
    apply List.map_congr_left
    intro s _
    simp [Function.comp, List.drop_drop]
    rw [show b + 1 + s = b + s + 1 by omega, List.drop_succ_cons]

theorem chunksF_join (b : Nat) (xs : List α) : (chunksF b xs).join = xs := by
  induction xs using chunksF.induct b with
  | case1 => simp [chunksF]
  | case2 x xs ih =>
    rw [chunksF]
    simp only [List.join_cons, ih, List.take_append_drop]

theorem chunksF_sum (b : Nat) (xs : List α) :
    ((chunksF b xs).map List.length).sum = xs.length := by
  induction xs using chunksF.induct b with
  | case1 => simp [chunksF]
  | case2 x xs ih =>
    rw [chunksF]
    simp only [List.map_cons, List.sum_cons, ih, List.length_take, List.length_drop,
      List.length_cons]
    omega

theorem chunksF_ne_nil (b : Nat) (x : α) (xs : List α) : chunksF b (x :: xs) ≠ [] := by
  rw [chunksF]
  simp

theorem chunksF_last (b : Nat) (xs : List α) (h : xs ≠ []) :
    ∃ lb, (chunksF b xs).getLast? = some lb
      ∧ lb.length = if xs.length % (b + 1) = 0 then b + 1 else xs.length % (b + 1) := by
  induction xs using chunksF.induct b with
  | case1 => exact absurd rfl h
  | case2 x xs ih =>
    rcases hd : (x :: xs).drop (b + 1) with _ | ⟨y, ys⟩
    · refine ⟨(x :: xs).take (b + 1), ?_, ?_⟩
      · rw [chunksF, hd]
        rw [chunksF]
        rfl
      · have hlen : (x :: xs).length ≤ b + 1 := by
          have := congrArg List.length hd
          simp only [List.length_drop, List.length_nil] at this
          omega
        have htake : ((x :: xs).take (b + 1)).length = (x :: xs).length := by
          simp only [List.length_take]
          omega
        rw [htake]
        rcases Nat.lt_or_ge (x :: xs).length (b + 1) with hlt | hge
        · rw [Nat.mod_eq_of_lt hlt]
          have hne : (x :: xs).length ≠ 0 := by simp
          simp [hne]
        · have heq : (x :: xs).length = b + 1 := by omega
          rw [heq, Nat.mod_self]
          simp
    · have hne : (x :: xs).drop (b + 1) ≠ [] := by rw [hd]; simp
      obtain ⟨lb, hlast, hlb⟩ := ih (by rw [hd]; simp)
      refine ⟨lb, ?_, ?_⟩
      · rw [chunksF]
        rw [List.getLast?_cons]
        rw [hd] at hlast ⊢
        rw [chunksF] at hlast ⊢
        simp only [List.getLast?_cons] at hlast ⊢
        exact hlast
      · have hmod : (x :: xs).length % (b + 1) = ((x :: xs).drop (b + 1)).length % (b + 1) := by
          have hge : b + 1 ≤ (x :: xs).length := by
            have := congrArg List.length hd
            simp only [List.length_drop, List.length_cons] at this ⊢
            omega
          rw [List.length_drop]
          exact Nat.mod_eq_sub_mod hge
        rw [hmod]
        exact hlb

theorem ceil_bounds (n B : Nat) (hB : 0 < B) :
    n ≤ ((n + B - 1) / B) * B ∧ ((n + B - 1) / B) * B < n + B := by
  have h1 := Nat.div_add_mod (n + B - 1) B
  have h2 : (n + B - 1) % B < B := Nat.mod_lt _ hB
  rw [Nat.mul_comm]
  constructor <;> omega

theorem batches_length (xs : List α) (B : Nat) :
    (batches xs B).length = (xs.length + B - 1) / B := by
  simp [batches]

theorem batches_get (xs : List α) (B i : Nat) (h : i < (batches xs B).length) :
    (batches xs B).get ⟨i, h⟩ = (xs.drop (i * B)).take B := by
  simp only [batches, List.get_eq_getElem, List.getElem_map, List.getElem_range']
  rw [Nat.zero_add, Nat.mul_comm]

/-- C2: for a table of N rows and positive batch size B the batching loop
yields exactly ceil(N/B) batches (the count k is (N+B-1)/B, pinned as ceiling
by N ≤ k·B < N+B); batch i is the slice starting at row i·B, of length
min((i+1)·B, N) - i·B, i.e. it covers exactly rows [i·B, min((i+1)·B, N));
the batch sizes sum to N; concatenating the batches in order reproduces the
table exactly (no loss, no duplication, no reordering); and the final batch
of a nonempty table has size N mod B, or B when N mod B = 0. -/
theorem C2_batching (xs : List α) (B : Nat) (hB : 0 < B) :
    ((batches xs B).length = (xs.length + B - 1) / B
      ∧ xs.length ≤ (batches xs B).length * B
      ∧ (batches xs B).length * B < xs.length + B)
    ∧ (∀ i : Nat, ∀ h : i < (batches xs B).length,
        (batches xs B).get ⟨i, h⟩ = (xs.drop (i * B)).take B
        ∧ ((batches xs B).get ⟨i, h⟩).length = min ((i + 1) * B) xs.length - i * B)
    ∧ ((batches xs B).map List.length).sum = xs.length
    ∧ (batches xs B).join = xs
    ∧ (xs ≠ [] → ∃ lb, (batches xs B).getLast? = some lb
        ∧ lb.length = if xs.length % B = 0 then B else xs.length % B) := by
  obtain ⟨b, rfl⟩ : ∃ b, B = b + 1 := ⟨B - 1, by omega⟩
  refine ⟨⟨batches_length xs (b + 1), ?_, ?_⟩, ?_, ?_, ?_, ?_⟩
  · rw [batches_length]
    exact (ceil_bounds xs.length (b + 1) hB).1
  · rw [batches_length]
    exact (ceil_bounds xs.length (b + 1) hB).2
  · intro i h
    refine ⟨batches_get xs (b + 1) i h, ?_⟩
    rw [batches_get xs (b + 1) i h]
    simp only [List.length_take, List.length_drop]
    rw [show (i + 1) * (b + 1) = i * (b + 1) + (b + 1) by ring]
    omega
  · rw [batches_eq_chunksF]
    exact chunksF_sum b xs
  · rw [batches_eq_chunksF]
    exact chunksF_join b xs
  · intro h
    rw [batches_eq_chunksF]
    exact chunksF_last b xs h

/-- C2 witness: a 5-row table with batch size 2 (batches of sizes 2, 2, 1). -/
theorem C2_batching_witness :
    0 < 2
    ∧ (((batches [10, 20, 30, 40, 50] 2).length = ([10, 20, 30, 40, 50].length + 2 - 1) / 2
        ∧ [10, 20, 30, 40, 50].length ≤ (batches [10, 20, 30, 40, 50] 2).length * 2
        ∧ (batches [10, 20, 30, 40, 50] 2).length * 2 < [10, 20, 30, 40, 50].length + 2)
      ∧ (∀ i : Nat, ∀ h : i < (batches [10, 20, 30, 40, 50] 2).length,
          (batches [10, 20, 30, 40, 50] 2).get ⟨i, h⟩ = ([10, 20, 30, 40, 50].drop (i * 2)).take 2
          ∧ ((batches [10, 20, 30, 40, 50] 2).get ⟨i, h⟩).length
              = min ((i + 1) * 2) [10, 20, 30, 40, 50].length - i * 2)
      ∧ ((batches [10, 20, 30, 40, 50] 2).map List.length).sum = [10, 20, 30, 40, 50].length
      ∧ (batches [10, 20, 30, 40, 50] 2).join = [10, 20, 30, 40, 50]
      ∧ ([10, 20, 30, 40, 50] ≠ ([] : List Nat) →
          ∃ lb, (batches [10, 20, 30, 40, 50] 2).getLast? = some lb
            ∧ lb.length = if [10, 20, 30, 40, 50].length % 2 = 0 then 2
                else [10, 20, 30, 40, 50].length % 2)) :=
  ⟨by decide, C2_batching [10, 20, 30, 40, 50] 2 (by decide)⟩

/-! Behaviour of the insert loop. -/

theorem insertLoop_ok (failAt : Nat → Bool) (columns : String)
    (bs : List (List (List PyVal))) (k : Nat) (st : RunState)
    (hok : ∀ j, j < bs.length → failAt (k + j) = false) :
    insertLoop failAt columns k bs st
      = Except.ok { stmts := st.stmts ++ bs.map (insertStatement columns),
                    total := st.total + (bs.map List.length).sum } := by
  induction bs generalizing k st with
  | nil => simp [insertLoop]
  | cons b bs ih =>
    have h0 : failAt k = false := by
      have := hok 0 (by simp)
      simpa using this
    rw [insertLoop, h0]
    simp only [Bool.false_eq_true, if_false]
    rw [ih (k + 1) _ ?_]
    · simp [List.append_assoc, Nat.add_assoc]
    · intro j hj
      rw [show k + 1 + j = k + (j + 1) by omega]
      exact hok (j + 1) (by simp only [List.length_cons]; omega)

theorem insertLoop_error (failAt : Nat → Bool) (columns : String)
    (bs : List (List (List PyVal))) (k j : Nat) (st : RunState)
    (hlt : j < bs.length)
    (hok : ∀ i, i < j → failAt (k + i) = false)
    (hfail : failAt (k + j) = true) :
    insertLoop failAt columns k bs st
      = Except.error { stmts := st.stmts ++ (bs.take j).map (insertStatement columns),
                       total := st.total + ((bs.take j).map List.length).sum } := by
  induction bs generalizing k j st with
  | nil => exact absurd hlt (by simp)
  | cons b bs ih =>
    cases j with
    | zero =>
      have h0 : failAt k = true := by simpa using hfail
      rw [insertLoop, h0]
      simp
    | succ j =>
      have h0 : failAt k = false := by
        have := hok 0 (Nat.succ_pos j)
        simpa using this
      rw [insertLoop, h0]
      simp only [Bool.false_eq_true, if_false]
      rw [ih (k + 1) j _ ?_ ?_ ?_]
      · simp [List.append_assoc, Nat.add_assoc]
      · simp only [List.length_cons] at hlt
        omega
      · intro i hi
        rw [show k + 1 + i = k + (i + 1) by omega]
        exact hok (i + 1) (by omega)
      · rw [show k + 1 + j = k + (j + 1) by omega]
        exact hfail

/-- C3: if statement submission for batch k raises a database error, the error
is not caught by the insert loop: the run's result is the exception, no batch
after k is submitted, and the state carried out (statements of batches
0..k-1 and the running total advanced through batch k-1) is exactly the state
produced before the failure. -/
theorem C3_error_propagation (failAt : Nat → Bool) (columns : String)
    (sampleSize B : Nat) (file : List (List PyVal)) (k : Nat)
    (hk : k < (batches (file.take sampleSize) B).length)
    (hok : ∀ i, i < k → failAt i = false)
    (hfail : failAt k = true) :
    runIngestion failAt columns sampleSize B file
      = Except.error
          { stmts := ((batches (file.take sampleSize) B).take k).map (insertStatement columns),
            total := (((batches (file.take sampleSize) B).take k).map List.length).sum } := by
  unfold runIngestion
  rw [insertLoop_error failAt columns _ 0 k initState hk
    (fun i hi => by simpa using hok i hi) (by simpa using hfail)]
  simp [initState]

/-- C3 witness: three one-row batches, submission of batch 1 fails; the run
aborts with exactly batch 0 submitted and a total of 1. -/
theorem C3_error_propagation_witness :
    (1 < (batches (([[PyVal.pyInt 1], [PyVal.pyInt 2], [PyVal.pyInt 3]] :
          List (List PyVal)).take 3) 1).length)
    ∧ runIngestion (fun j => j == 1) ("c") 3 1 [[PyVal.pyInt 1], [PyVal.pyInt 2], [PyVal.pyInt 3]]
        = Except.error
            { stmts := ((batches (([[PyVal.pyInt 1], [PyVal.pyInt 2], [PyVal.pyInt 3]] :
                  List (List PyVal)).take 3) 1).take 1).map (insertStatement ("c")),
              total := (((batches (([[PyVal.pyInt 1], [PyVal.pyInt 2], [PyVal.pyInt 3]] :
                  List (List PyVal)).take 3) 1).take 1).map List.length).sum } :=
  ⟨by decide,
    C3_error_propagation (fun j => j == 1) ("c") 3 1
      [[PyVal.pyInt 1], [PyVal.pyInt 2], [PyVal.pyInt 3]] 1
      (by decide) (by decide) (by decide)⟩

/-- C6: in a failure-free run, the statement submitted for batch i is exactly
the composition the emitter prescribes: format each row's values in column
order, join them with ", " and parenthesize, join the row-tuples with ", ",
and prefix with INSERT INTO, the table name and the column list. -/
theorem C6_statement_composition (columns : String) (sampleSize B : Nat)
    (file : List (List PyVal)) :
    ∃ st : RunState,
      runIngestion noFailure columns sampleSize B file = Except.ok st
      ∧ st.stmts.length = (batches (file.take sampleSize) B).length
      ∧ (∀ i : Nat, ∀ h : i < st.stmts.length,
          st.stmts.get ⟨i, h⟩
            = "INSERT INTO yellow_trips (" ++ columns ++ ") VALUES "
              ++ String.intercalate (", ")
                ((((file.take sampleSize).drop (i * B)).take B).map
                  (fun row => "(" ++ String.intercalate (", ")
                    (row.map format_value) ++ ")"))) := by
  have hrun : runIngestion noFailure columns sampleSize B file
      = Except.ok { stmts := (batches (file.take sampleSize) B).map (insertStatement columns),
                    total := ((batches (file.take sampleSize) B).map List.length).sum } := by
    unfold runIngestion
    rw [insertLoop_ok noFailure columns _ 0 initState (fun j _ => rfl)]
    simp [initState]
  refine ⟨_, hrun, by simp, ?_⟩
  intro i h
  have h2 : i < (batches (file.take sampleSize) B).length := by simpa using h
  have hb := batches_get (file.take sampleSize) B i h2
  simp only [List.get_eq_getElem, List.getElem_map]
  rw [List.get_eq_getElem] at hb
  rw [hb]
  rfl

/-- C6 witness: a two-row table in one batch of two rows. -/
theorem C6_statement_composition_witness :
    ∃ st : RunState,
      runIngestion noFailure ("payment") 2 2 [[PyVal.pyStr ("CASH")], [PyVal.pyNone]]
          = Except.ok st
      ∧ st.stmts.length
          = (batches (([[PyVal.pyStr ("CASH")], [PyVal.pyNone]] :
              List (List PyVal)).take 2) 2).length
      ∧ (∀ i : Nat, ∀ h : i < st.stmts.length,
          st.stmts.get ⟨i, h⟩
            = "INSERT INTO yellow_trips (" ++ ("payment") ++ ") VALUES "
              ++ String.intercalate (", ")
                ((((([[PyVal.pyStr ("CASH")], [PyVal.pyNone]] :
                    List (List PyVal)).take 2).drop (i * 2)).take 2).map
                  (fun row => "(" ++ String.intercalate (", ")
                    (row.map format_value) ++ ")"))) :=
  C6_statement_composition ("payment") 2 2 [[PyVal.pyStr ("CASH")], [PyVal.pyNone]]

/-- C8: the running total starts at 0; in a failure-free run, after processing
the first i batches it equals the sum of the sizes of those batches; after the
loop completes it equals the number of rows sampled from the file,
min(file length, sample size). -/
theorem C8_running_total (columns : String) (sampleSize B : Nat)
    (file : List (List PyVal)) (hB : 0 < B) :
    initState.total = 0
    ∧ (∀ i : Nat,
        insertLoop noFailure columns 0 ((batches (file.take sampleSize) B).take i) initState
          = Except.ok
              { stmts := ((batches (file.take sampleSize) B).take i).map
                  (insertStatement columns),
                total := (((batches (file.take sampleSize) B).take i).map List.length).sum })
    ∧ (∃ st : RunState, runIngestion noFailure columns sampleSize B file = Except.ok st
        ∧ st.total = min file.length sampleSize
        ∧ st.total = (file.take sampleSize).length) := by
  obtain ⟨b, rfl⟩ : ∃ b, B = b + 1 := ⟨B - 1, by omega⟩
  refine ⟨rfl, ?_, ?_⟩
  · intro i
    rw [insertLoop_ok noFailure columns _ 0 initState (fun j _ => rfl)]
    simp [initState]
  · have hrun : runIngestion noFailure columns sampleSize (b + 1) file
        = Except.ok
            { stmts := (batches (file.take sampleSize) (b + 1)).map (insertStatement columns),
              total := ((batches (file.take sampleSize) (b + 1)).map List.length).sum } := by
      unfold runIngestion
      rw [insertLoop_ok noFailure columns _ 0 initState (fun j _ => rfl)]
      simp [initState]
    refine ⟨_, hrun, ?_, ?_⟩
    · show ((batches (file.take sampleSize) (b + 1)).map List.length).sum
          = min file.length sampleSize
      rw [batches_eq_chunksF, chunksF_sum, List.length_take, Nat.min_comm]
    · show ((batches (file.take sampleSize) (b + 1)).map List.length).sum
          = (file.take sampleSize).length
      rw [batches_eq_chunksF, chunksF_sum]

/-- C8 witness: a 2-row file, sample size 3 (so min(2, 3) = 2 rows), batches
of size 2. -/
theorem C8_running_total_witness :
    0 < 2
    ∧ (initState.total = 0
      ∧ (∀ i : Nat,
          insertLoop noFailure ("c") 0
              ((batches (([[PyVal.pyInt 1], [PyVal.pyInt 2]] :
                  List (List PyVal)).take 3) 2).take i) initState
            = Except.ok
                { stmts := ((batches (([[PyVal.pyInt 1], [PyVal.pyInt 2]] :
                      List (List PyVal)).take 3) 2).take i).map (insertStatement ("c")),
                  total := (((batches (([[PyVal.pyInt 1], [PyVal.pyInt 2]] :
                      List (List PyVal)).take 3) 2).take i).map List.length).sum })
      ∧ (∃ st : RunState,
          runIngestion noFailure ("c") 3 2 [[PyVal.pyInt 1], [PyVal.pyInt 2]] = Except.ok st
          ∧ st.total = min ([[PyVal.pyInt 1], [PyVal.pyInt 2]] :
              List (List PyVal)).length 3
          ∧ st.total = (([[PyVal.pyInt 1], [PyVal.pyInt 2]] :
              List (List PyVal)).take 3).length)) :=
  ⟨by decide, C8_running_total ("c") 3 2 [[PyVal.pyInt 1], [PyVal.pyInt 2]] (by decide)⟩

/-- C10: `TrinoResource.execute` propagates exactly the execution-phase
exceptions; once execution succeeds it never raises: a fetch-phase exception
is swallowed and the empty list is returned, and a successful fetch is
returned unchanged — so every call either raises during execution or returns
some (possibly empty) list. -/
theorem C10_trino_execute {ε ρ : Type} (execRes : Except ε Unit)
    (fetchRes : Except ε (List ρ)) :
    (∀ e : ε, TrinoResource.execute execRes fetchRes = Except.error e
        ↔ execRes = Except.error e)
    ∧ (execRes = Except.ok () → ∀ e : ε, fetchRes = Except.error e →
        TrinoResource.execute execRes fetchRes = Except.ok [])
    ∧ (execRes = Except.ok () → ∀ rows : List ρ, fetchRes = Except.ok rows →
        TrinoResource.execute execRes fetchRes = Except.ok rows)
    ∧ (execRes = Except.ok () → ∃ rows : List ρ,
        TrinoResource.execute execRes fetchRes = Except.ok rows) := by
  cases execRes with
  | error e => cases fetchRes <;> simp [TrinoResource.execute]
  | ok u =>
    cases u
    cases fetchRes <;> simp [TrinoResource.execute]

/-- C10 witness: execution succeeds and the fetch raises; the call returns
the empty list rather than raising. -/
theorem C10_trino_execute_witness :
    (∀ e : Unit, TrinoResource.execute (Except.ok () : Except Unit Unit)
          (Except.error () : Except Unit (List Nat)) = Except.error e
        ↔ (Except.ok () : Except Unit Unit) = Except.error e)
    ∧ ((Except.ok () : Except Unit Unit) = Except.ok () → ∀ e : Unit,
        (Except.error () : Except Unit (List Nat)) = Except.error e →
        TrinoResource.execute (Except.ok () : Except Unit Unit)
          (Except.error () : Except Unit (List Nat)) = Except.ok [])
    ∧ ((Except.ok () : Except Unit Unit) = Except.ok () → ∀ rows : List Nat,
        (Except.error () : Except Unit (List Nat)) = Except.ok rows →
        TrinoResource.execute (Except.ok () : Except Unit Unit)
          (Except.error () : Except Unit (List Nat)) = Except.ok rows)
    ∧ ((Except.ok () : Except Unit Unit) = Except.ok () → ∃ rows : List Nat,
        TrinoResource.execute (Except.ok () : Except Unit Unit)
          (Except.error () : Except Unit (List Nat)) = Except.ok rows) :=
  C10_trino_execute (Except.ok ()) (Except.error ())
